import Mathlib

/-!
Verification of the Reduino transpiler (`src/Reduino/transpile/parser.py` and
`src/Reduino/transpile/emitter.py`) against its natural-language specification.

The development shallowly embeds the transpiler's pure core: the restricted
expression grammar together with its constant evaluator (`_eval_const`) and
C-expression translator (`_to_c_expr`), the statement AST, the code generator
(`_emit_block` / `emit`), the declaration-promotion pass, the overload
selection performed at the end of `parse`, and a line-oriented parser for the
LED/Sleep/while fragment of the DSL.  Python machine integers are arbitrary
precision, so `Int` models them exactly; Python floats appear only as results
of `/` and `**` inside the constant folder and are modelled as exact rationals
(the claims proved here never inspect a float's rounded payload).
-/

namespace Reduino

/-- Binary operator kinds of the restricted expression grammar (keys of the
`_BIN` table in `parser.py`). -/
inductive BinOpK where
  | addOp | subOp | mult | divOp | floorDiv | modOp | powOp
  | bitAnd | bitOr | bitXor | lShift | rShift
deriving DecidableEq, Repr

/-- The `_BIN` token table: target-language token for each binary operator.
Both true division and floor division map to the single token "/". -/
def binToken : BinOpK → String
  | .addOp => "+"
  | .subOp => "-"
  | .mult => "*"
  | .divOp => "/"
  | .floorDiv => "/"
  | .modOp => "%"
  | .powOp => "**"
  | .bitAnd => "&"
  | .bitOr => "|"
  | .bitXor => "^"
  | .lShift => "<<"
  | .rShift => ">>"

/-- Unary operator kinds (`_UN` table). -/
inductive UnOpK where
  | uadd | usub | unot
deriving DecidableEq, Repr

/-- The `_UN` token table. -/
def unToken : UnOpK → String
  | .uadd => "+"
  | .usub => "-"
  | .unot => "!"

/-- Comparison operator kinds (`_CMP` table). -/
inductive CmpK where
  | eqOp | notEq | ltOp | ltE | gtOp | gtE
deriving DecidableEq, Repr

/-- The `_CMP` token table. -/
def cmpToken : CmpK → String
  | .eqOp => "=="
  | .notEq => "!="
  | .ltOp => "<"
  | .ltE => "<="
  | .gtOp => ">"
  | .gtE => ">="

/-- Scalar sub-grammar of the expressions handled by `_eval_const` and
`_to_c_expr`: literals, names, unary and binary operators, a single
comparison, and the ternary conditional.  (F-strings, calls, lists and
boolean chains of the source are outside the claims proved here.) -/
inductive Expr where
  | intLit (n : Int)
  | boolLit (b : Bool)
  | strLit (s : String)
  | name (id : String)
  | un (op : UnOpK) (e : Expr)
  | bin (op : BinOpK) (l r : Expr)
  | cmp (op : CmpK) (l r : Expr)
  | ternary (test body orelse : Expr)
deriving DecidableEq, Repr

/-- Constant values produced by `_eval_const`.  Python floats are modelled as
exact rationals; the claims never depend on a float's rounded bits. -/
inductive Value where
  | vInt (n : Int)
  | vFloat (q : Rat)
  | vBool (b : Bool)
  | vStr (s : String)
deriving DecidableEq, Repr

/-- Environment entries: a known constant, or the `_ExprStr` marker flagging a
name that is only known as a runtime expression fragment. -/
inductive EnvVal where
  | val (v : Value)
  | exprMarker (s : String)
deriving DecidableEq, Repr

/-- Python truthiness of a folded value (used by the ternary and `not`). -/
def truthy : Value → Bool
  | .vInt n => n ≠ 0
  | .vFloat q => q ≠ 0
  | .vBool b => b
  | .vStr s => s ≠ ""

/-- Numeric view of a value: Python treats `bool` as an integer. -/
def asNum : Value → Option (Int ⊕ Rat)
  | .vInt n => some (.inl n)
  | .vBool b => some (.inl (if b then 1 else 0))
  | .vFloat q => some (.inr q)
  | .vStr _ => none

/-- 2^k as an integer (shift helper). -/
def pow2 (k : Nat) : Int := (2 : Int) ^ k

/-- `_apply_bin` on two integers (the all-integer branch of Python's operator
semantics): floor division and floor modulus, exact true division into a
float, power, bitwise and shift operators.  Division by zero and negative
shifts raise in Python and so yield `none`. -/
def applyBinInt (op : BinOpK) (a b : Int) : Option Value :=
  match op with
  | .addOp => some (.vInt (a + b))
  | .subOp => some (.vInt (a - b))
  | .mult => some (.vInt (a * b))
  | .divOp => if b = 0 then none else some (.vFloat ((a : Rat) / (b : Rat)))
  | .floorDiv => if b = 0 then none else some (.vInt (Int.fdiv a b))
  | .modOp => if b = 0 then none else some (.vInt (Int.fmod a b))
  | .powOp =>
      if 0 ≤ b then some (.vInt (a ^ b.toNat))
      else if a = 0 then none
      else some (.vFloat ((a : Rat) ^ b))
  | .bitAnd => some (.vInt (Int.land a b))
  | .bitOr => some (.vInt (Int.lor a b))
  | .bitXor => some (.vInt (Int.xor a b))
  | .lShift => if b < 0 then none else some (.vInt (a * pow2 b.toNat))
  | .rShift => if b < 0 then none else some (.vInt (Int.fdiv a (pow2 b.toNat)))

/-- `_apply_bin` when at least one operand is a float: arithmetic is exact
rational arithmetic, floor division floors, bitwise and shift operators raise
(`none`).  Floor modulus follows Python's floor convention.  A float power
with non-integral exponent is irrational in general and is not modelled. -/
def applyBinFloat (op : BinOpK) (a b : Rat) : Option Value :=
  match op with
  | .addOp => some (.vFloat (a + b))
  | .subOp => some (.vFloat (a - b))
  | .mult => some (.vFloat (a * b))
  | .divOp => if b = 0 then none else some (.vFloat (a / b))
  | .floorDiv => if b = 0 then none else some (.vFloat ((⌊a / b⌋ : Int) : Rat))
  | .modOp => if b = 0 then none else some (.vFloat (a - b * ((⌊a / b⌋ : Int) : Rat)))
  | .powOp =>
      if b.den = 1 then
        if a = 0 ∧ b.num < 0 then none else
        if a = 0 then some (.vFloat 0) else some (.vFloat (a ^ b.num))
      else none
  | _ => none

/-- `_apply_bin` from `_eval_const`: string concatenation is special-cased for
`+`, every other case requires two numeric operands. -/
def applyBin (op : BinOpK) (x y : Value) : Option Value :=
  match op, x, y with
  | .addOp, .vStr a, .vStr b => some (.vStr (a ++ b))
  | _, _, _ =>
      match asNum x, asNum y with
      | some (.inl a), some (.inl b) => applyBinInt op a b
      | some (.inl a), some (.inr b) => applyBinFloat op (a : Rat) b
      | some (.inr a), some (.inl b) => applyBinFloat op a (b : Rat)
      | some (.inr a), some (.inr b) => applyBinFloat op a b
      | _, _ => none

/-- Python `==` between folded values: numbers compare numerically (bools are
integers), strings compare as strings, and values of incomparable kinds are
simply unequal. -/
def eqVal (x y : Value) : Option Bool :=
  match asNum x, asNum y with
  | some (.inl a), some (.inl b) => some (a = b)
  | some (.inl a), some (.inr b) => some ((a : Rat) = b)
  | some (.inr a), some (.inl b) => some (a = (b : Rat))
  | some (.inr a), some (.inr b) => some (a = b)
  | _, _ =>
      match x, y with
      | .vStr a, .vStr b => some (a = b)
      | _, _ => some false

/-- Python `<` between folded values: numeric or string-string ordering;
ordering a number against a string raises (`none`). -/
def ltVal (x y : Value) : Option Bool :=
  match asNum x, asNum y with
  | some (.inl a), some (.inl b) => some (a < b)
  | some (.inl a), some (.inr b) => some ((a : Rat) < b)
  | some (.inr a), some (.inl b) => some (a < (b : Rat))
  | some (.inr a), some (.inr b) => some (a < b)
  | _, _ =>
      match x, y with
      | .vStr a, .vStr b => some (a < b)
      | _, _ => none

/-- One comparison step of the `ast.Compare` handler in `_eval_const`. -/
def cmpVal (op : CmpK) (x y : Value) : Option Bool :=
  match op with
  | .eqOp => eqVal x y
  | .notEq => (eqVal x y).map (!·)
  | .ltOp => ltVal x y
  | .gtOp => ltVal y x
  | .ltE => (ltVal y x).map (!·)
  | .gtE => (ltVal x y).map (!·)

/-- `_eval_const`: fold an expression to a constant given an environment of
known bindings; any unsupported or runtime-only node anywhere makes the whole
fold fail (`none`).  A name bound to the `_ExprStr` marker is a runtime-only
reference and fails. -/
def evalConst (env : List (String × EnvVal)) : Expr → Option Value
  | .intLit n => some (.vInt n)
  | .boolLit b => some (.vBool b)
  | .strLit s => some (.vStr s)
  | .name id =>
      match env.lookup id with
      | some (.val v) => some v
      | some (.exprMarker _) => none
      | none => none
  | .un op e =>
      match evalConst env e with
      | none => none
      | some v =>
          match op with
          | .uadd => some v
          | .usub =>
              match asNum v with
              | some (.inl n) => some (.vInt (-n))
              | some (.inr q) => some (.vFloat (-q))
              | none => none
          | .unot => some (.vBool (!truthy v))
  | .bin op l r =>
      match evalConst env l, evalConst env r with
      | some a, some b => applyBin op a b
      | _, _ => none
  | .cmp op l r =>
      match evalConst env l, evalConst env r with
      | some a, some b => (cmpVal op a b).map (.vBool ·)
      | _, _ => none
  | .ternary t b e =>
      match evalConst env t with
      | none => none
      | some c => if truthy c then evalConst env b else evalConst env e

/-- `_escape_string_literal`: escape a Python string into a C/C++ literal
body (backslashes doubled, double quotes escaped). -/
def escapeStringLiteral (s : String) : String :=
  String.mk (s.data.foldr (fun c acc =>
    if c = '\\' then '\\' :: '\\' :: acc
    else if c = '"' then '\\' :: '"' :: acc
    else c :: acc) [])

/-- `_to_c_expr` on the scalar sub-grammar: fully parenthesised rendering into
target-language text.  Names are emitted verbatim; a single comparison renders
as one parenthesised pair exactly as the `ast.Compare` branch does. -/
def toCExpr : Expr → String
  | .intLit n => toString n
  | .boolLit b => if b then "true" else "false"
  | .strLit s => "\"" ++ escapeStringLiteral s ++ "\""
  | .name id => id
  | .un op e => "(" ++ unToken op ++ toCExpr e ++ ")"
  | .bin op l r => "(" ++ toCExpr l ++ " " ++ binToken op ++ " " ++ toCExpr r ++ ")"
  | .cmp op l r => "(" ++ toCExpr l ++ " " ++ cmpToken op ++ " " ++ toCExpr r ++ ")"
  | .ternary t b e =>
      "(" ++ toCExpr t ++ " ? " ++ toCExpr b ++ " : " ++ toCExpr e ++ ")"

/-- `_SAFE_NAME_REFERENCES`: identifiers that `_expr_has_name` does not count
as name references. -/
def safeNameReferences : List String :=
  ["len", "abs", "max", "min", "int", "float", "bool", "str"]

/-- `_expr_has_name`: does the expression reference any identifier outside the
safe built-in allow-list? -/
def exprHasName : Expr → Bool
  | .intLit _ => false
  | .boolLit _ => false
  | .strLit _ => false
  | .name id => ¬ safeNameReferences.contains id
  | .un _ e => exprHasName e
  | .bin _ l r => exprHasName l || exprHasName r
  | .cmp _ l r => exprHasName l || exprHasName r
  | .ternary t b e => exprHasName t || exprHasName b || exprHasName e

end Reduino

namespace Reduino

/-- Python whitespace (`str.strip`): space, tab, newline, carriage return,
form feed, vertical tab. -/
def isPySpace (c : Char) : Bool :=
  c = ' ' || c = '\t' || c = '\n' || c = '\r' || c = '\x0c' || c = '\x0b'

/-- Python `str.strip()`. -/
def pyStrip (s : String) : String :=
  String.mk (((s.data.dropWhile isPySpace).reverse.dropWhile isPySpace).reverse)

/-- Prefix test (`str.startswith`). -/
def strStarts (s p : String) : Bool := decide (s.data.take p.data.length = p.data)

/-- Suffix test (`str.endswith`). -/
def strEnds (s p : String) : Bool :=
  decide (p.data.length ≤ s.data.length ∧
    s.data.drop (s.data.length - p.data.length) = p.data)

/-- Split on every occurrence of a separator character (`str.split` /
`String.splitOn` for a one-character separator). -/
def splitOnCharAux (c : Char) : List Char → List Char → List String
  | [], acc => [String.mk acc.reverse]
  | d :: rest, acc =>
      if d = c then String.mk acc.reverse :: splitOnCharAux c rest []
      else splitOnCharAux c rest (d :: acc)

/-- Split a string at a separator character. -/
def splitOnChar (c : Char) (s : String) : List String := splitOnCharAux c s.data []

/-- Decimal digits to a natural number. -/
def digitsToNat (ds : List Char) : Nat :=
  ds.foldl (fun n c => 10 * n + (c.toNat - '0'.toNat)) 0

/-- Python `int(...)` on a decimal literal with optional sign (`str.toInt?`). -/
def parseInt? (s : String) : Option Int :=
  match s.data with
  | [] => none
  | '-' :: rest =>
      if rest ≠ [] ∧ rest.all Char.isDigit then some (-(digitsToNat rest : Int))
      else none
  | cs =>
      if cs.all Char.isDigit then some ((digitsToNat cs : Int)) else none

/-- A pin (or any numeric slot of a statement node): either a folded integer
or a rendered runtime expression string — `_emit_expr` stringifies both. -/
inductive PinVal where
  | num (n : Int)
  | expr (s : String)
deriving DecidableEq, Repr

/-- `_emit_expr`: render an integer literal or pre-formatted expression. -/
def emitExprV : PinVal → String
  | .num n => toString n
  | .expr s => s

/-- Statement nodes of the transpiler AST (`transpile/ast.py`), restricted to
the constructs exercised by the claims: variable declaration/assignment,
expression statements, `break`, `Sleep`, the LED feature, and the structured
control-flow nodes. -/
inductive Stmt where
  | varDecl (name cType expr : String) (globalScope : Bool)
  | varAssign (name expr : String)
  | exprStmt (e : String)
  | breakStmt
  | sleep (ms : PinVal)
  | ledDecl (name : String) (pin : PinVal)
  | ledOn (name : String)
  | ledOff (name : String)
  | ledToggle (name : String)
  | ledSetBrightness (name : String) (value : PinVal)
  | ledFlashPattern (name : String) (pattern : List Int) (delayMs : PinVal)
  | ifStmt (branches : List (String × List Stmt)) (elseBody : List Stmt)
  | whileLoop (cond : String) (body : List Stmt)
  | forRange (var : String) (count : Int) (body : List Stmt)

/-- Insert-or-overwrite on an association list (Python `d[k] = v`; overwrite
keeps the original position, like a dict). -/
def updA (k : String) (v : α) : List (String × α) → List (String × α)
  | [] => [(k, v)]
  | (k', v') :: rest => if k' = k then (k, v) :: rest else (k', v') :: updA k v rest

/-- Python `d.setdefault(k, v)`: return the bound value, inserting `v` at the
end when the key is absent. -/
def setdefaultA (k : String) (v : α) (m : List (String × α)) : α × List (String × α) :=
  match m.lookup k with
  | some w => (w, m)
  | none => (v, m ++ [(k, v)])

/-- Mutable emitter state threaded through `_emit_block`: the per-LED pin,
state-variable and brightness-variable tables and the `emitted_pin_modes`
dedup set (keys `(name, pin_expr)` for LED declarations). -/
structure EmitSt where
  ledPin : List (String × PinVal) := []
  ledState : List (String × String) := []
  ledBrightness : List (String × String) := []
  pinModes : List (String × String) := []
deriving DecidableEq, Repr

/-- `_ensure_led_tracking`: look up (or default) the pin and create-on-demand
the per-LED state and brightness variable names. -/
def ensureLedTracking (name : String) (st : EmitSt) :
    String × String × String × EmitSt :=
  let pin := (st.ledPin.lookup name).getD (.num 13)
  let (stateVar, ledState') := setdefaultA name ("__state_" ++ name) st.ledState
  let (brightVar, ledBright') := setdefaultA name ("__brightness_" ++ name) st.ledBrightness
  (emitExprV pin, stateVar, brightVar,
    { st with ledState := ledState', ledBrightness := ledBright' })

mutual

/-- `_emit_block` on a single statement node: the emitted C++ source lines and
the updated emitter state. -/
def emitS (node : Stmt) (indent : String) (inSetup : Bool) (st : EmitSt) :
    List String × EmitSt :=
  match node with
  | .varDecl name cType expr globalScope =>
      if globalScope then ([], st)
      else ([indent ++ cType ++ " " ++ name ++ " = " ++ expr ++ ";"], st)
  | .varAssign name expr => ([indent ++ name ++ " = " ++ expr ++ ";"], st)
  | .exprStmt e => ([indent ++ e ++ ";"], st)
  | .breakStmt => ([indent ++ "break;"], st)
  | .sleep ms => ([indent ++ "delay(" ++ emitExprV ms ++ ");"], st)
  | .ledDecl name pin =>
      let st := { st with
        ledPin := updA name pin st.ledPin,
        ledState := updA name ("__state_" ++ name) st.ledState,
        ledBrightness := updA name ("__brightness_" ++ name) st.ledBrightness }
      if inSetup then
        let pinExpr := emitExprV pin
        if st.pinModes.contains (name, pinExpr) then ([], st)
        else ([indent ++ "pinMode(" ++ pinExpr ++ ", OUTPUT);"],
              { st with pinModes := st.pinModes ++ [(name, pinExpr)] })
      else ([], st)
  | .ledOn name =>
      let (pinCode, stateVar, brightVar, st) := ensureLedTracking name st
      ([indent ++ stateVar ++ " = true;",
        indent ++ brightVar ++ " = 255;",
        indent ++ "digitalWrite(" ++ pinCode ++ ", HIGH);"], st)
  | .ledOff name =>
      let (pinCode, stateVar, brightVar, st) := ensureLedTracking name st
      ([indent ++ stateVar ++ " = false;",
        indent ++ brightVar ++ " = 0;",
        indent ++ "digitalWrite(" ++ pinCode ++ ", LOW);"], st)
  | .ledToggle name =>
      let (pinCode, stateVar, brightVar, st) := ensureLedTracking name st
      ([indent ++ stateVar ++ " = !" ++ stateVar ++ ";",
        indent ++ brightVar ++ " = " ++ stateVar ++ " ? 255 : 0;",
        indent ++ "digitalWrite(" ++ pinCode ++ ", " ++ stateVar ++ " ? HIGH : LOW);"], st)
  | .ledSetBrightness name value =>
      let (pinCode, stateVar, brightVar, st) := ensureLedTracking name st
      let valueExpr := emitExprV value
      ([indent ++ "\x7b",
        indent ++ "  int __redu_brightness = " ++ valueExpr ++ ";",
        indent ++ "  if (__redu_brightness < 0) \x7b __redu_brightness = 0; \x7d",
        indent ++ "  if (__redu_brightness > 255) \x7b __redu_brightness = 255; \x7d",
        indent ++ "  " ++ brightVar ++ " = __redu_brightness;",
        indent ++ "  " ++ stateVar ++ " = " ++ brightVar ++ " > 0;",
        indent ++ "  analogWrite(" ++ pinCode ++ ", " ++ brightVar ++ ");",
        indent ++ "\x7d"], st)
  | .ledFlashPattern name pattern delayMs =>
      if pattern.isEmpty then ([], st)
      else
        let (pinCode, stateVar, brightVar, st) := ensureLedTracking name st
        let delayExpr := emitExprV delayMs
        let patternValues := String.intercalate ", " (pattern.map toString)
        ([indent ++ "\x7b",
          indent ++ "  const int __redu_pattern[] = \x7b" ++ patternValues ++ "\x7d;",
          indent ++ "  const size_t __redu_pattern_len = sizeof(__redu_pattern) / sizeof(__redu_pattern[0]);",
          indent ++ "  for (size_t __redu_i = 0; __redu_i < __redu_pattern_len; ++__redu_i) \x7b",
          indent ++ "    int __redu_value = __redu_pattern[__redu_i];",
          indent ++ "    if (__redu_value <= 0) \x7b",
          indent ++ "      " ++ brightVar ++ " = 0;",
          indent ++ "      " ++ stateVar ++ " = false;",
          indent ++ "      digitalWrite(" ++ pinCode ++ ", LOW);",
          indent ++ "    \x7d else if (__redu_value == 1) \x7b",
          indent ++ "      " ++ brightVar ++ " = 255;",
          indent ++ "      " ++ stateVar ++ " = true;",
          indent ++ "      digitalWrite(" ++ pinCode ++ ", HIGH);",
          indent ++ "    \x7d else \x7b",
          indent ++ "      if (__redu_value > 255) \x7b __redu_value = 255; \x7d",
          indent ++ "      " ++ brightVar ++ " = __redu_value;",
          indent ++ "      " ++ stateVar ++ " = " ++ brightVar ++ " > 0;",
          indent ++ "      analogWrite(" ++ pinCode ++ ", " ++ brightVar ++ ");",
          indent ++ "    \x7d",
          indent ++ "    if (__redu_i + 1 < __redu_pattern_len) \x7b",
          indent ++ "      delay(" ++ delayExpr ++ ");",
          indent ++ "    \x7d",
          indent ++ "  \x7d",
          indent ++ "\x7d"], st)
  | .ifStmt branches elseBody =>
      let (branchLines, st) := emitBranches branches true indent inSetup st
      if elseBody.isEmpty then (branchLines, st)
      else
        let (elseLines, st) := emitList elseBody (indent ++ "  ") inSetup st
        (branchLines ++ ([indent ++ "else \x7b"] ++ elseLines ++ [indent ++ "\x7d"]), st)
  | .whileLoop cond body =>
      let (bodyLines, st) := emitList body (indent ++ "  ") inSetup st
      ([indent ++ "while (" ++ cond ++ ") \x7b"] ++ bodyLines ++ [indent ++ "\x7d"], st)
  | .forRange var count body =>
      let (bodyLines, st) := emitList body (indent ++ "  ") inSetup st
      ([indent ++ "for (int " ++ var ++ " = 0; " ++ var ++ " < " ++ toString count ++
          "; ++" ++ var ++ ") \x7b"] ++ bodyLines ++ [indent ++ "\x7d"], st)

/-- `_emit_block` over the ordered `if`/`else if` branches. -/
def emitBranches (branches : List (String × List Stmt)) (first : Bool)
    (indent : String) (inSetup : Bool) (st : EmitSt) : List String × EmitSt :=
  match branches with
  | [] => ([], st)
  | (cond, body) :: rest =>
      let keyword := if first then "if" else "else if"
      let (bodyLines, st) := emitList body (indent ++ "  ") inSetup st
      let (restLines, st) := emitBranches rest false indent inSetup st
      ([indent ++ keyword ++ " (" ++ cond ++ ") \x7b"] ++ bodyLines ++
        [indent ++ "\x7d"] ++ restLines, st)

/-- `_emit_block` over a statement sequence. -/
def emitList (nodes : List Stmt) (indent : String) (inSetup : Bool) (st : EmitSt) :
    List String × EmitSt :=
  match nodes with
  | [] => ([], st)
  | node :: rest =>
      let (lines, st) := emitS node indent inSetup st
      let (restLines, st) := emitList rest indent inSetup st
      (lines ++ restLines, st)

end

end Reduino

namespace Reduino

/-- A parser-produced global declaration record (`VarDecl` with
`global_scope=True`, kept in the `Program`'s `global_decls` list). -/
structure GlobalDecl where
  name : String
  cType : String
  expr : String
deriving DecidableEq, Repr

/-- The root artifact built by `parse` and consumed by `emit`, restricted to
the fields the claims exercise. -/
structure Program where
  setupBody : List Stmt
  loopBody : List Stmt
  targetPort : Option String := none
  globalDecls : List GlobalDecl := []

/-- `HEADER` of the emitted artifact. -/
def HEADER : String := "#include <Arduino.h>\n\n"

/-- `SETUP_START`. -/
def SETUP_START : String := "void setup() \x7b\n"

/-- `SETUP_END`. -/
def SETUP_END : String := "\x7d\n\n"

/-- `LOOP_START`. -/
def LOOP_START : String := "void loop() \x7b\n"

/-- `LOOP_END`. -/
def LOOP_END : String := "\x7d\n"

/-- Append a line unless an identical line is already present (the emitter's
`if line not in globals_` pattern). -/
def appendIfNew (line : String) (ls : List String) : List String :=
  if ls.contains line then ls else ls ++ [line]

/-- Pass 1 of `emit` over the setup body: LED declarations create the per-LED
state/brightness globals (de-duplicated by exact text) and record the pin. -/
def setupPass1 (nodes : List Stmt) (globals : List String) (st : EmitSt) :
    List String × EmitSt :=
  nodes.foldl (fun acc node =>
    match acc, node with
    | (g, st), .ledDecl name pin =>
        let stateVar := "__state_" ++ name
        let brightVar := "__brightness_" ++ name
        let st := { st with ledState := updA name stateVar st.ledState }
        let g := appendIfNew ("bool " ++ stateVar ++ " = false;") g
        let st := { st with ledBrightness := updA name brightVar st.ledBrightness }
        let g := appendIfNew ("int " ++ brightVar ++ " = 0;") g
        let st := { st with ledPin := updA name pin st.ledPin }
        (g, st)
    | acc, _ => acc) (globals, st)

/-- Pass 1 of `emit` over the loop body: LED declarations create globals and
pin records only when the name is new, and append a `pinMode` line to the
setup section unconditionally (no dedup key is consulted for this path). -/
def loopPass1 (nodes : List Stmt) (globals setupLines : List String) (st : EmitSt) :
    List String × List String × EmitSt :=
  nodes.foldl (fun acc node =>
    match acc, node with
    | (g, sl, st), .ledDecl name pin =>
        let stateVar := "__state_" ++ name
        let brightVar := "__brightness_" ++ name
        let (g, st) :=
          if (st.ledState.lookup name).isSome then (g, st)
          else (appendIfNew ("bool " ++ stateVar ++ " = false;") g,
                { st with ledState := updA name stateVar st.ledState })
        let (g, st) :=
          if (st.ledBrightness.lookup name).isSome then (g, st)
          else (appendIfNew ("int " ++ brightVar ++ " = 0;") g,
                { st with ledBrightness := updA name brightVar st.ledBrightness })
        let st :=
          if (st.ledPin.lookup name).isSome then st
          else { st with ledPin := updA name pin st.ledPin }
        (g, sl ++ ["  pinMode(" ++ emitExprV pin ++ ", OUTPUT);"], st)
    | acc, _ => acc) (globals, setupLines, st)

/-- `emit`: serialize a `Program` into the target source — globals from the
declaration list, pass 1 over both phases, pass 2 statement emission
(setup with `in_setup=True`), and the fixed stitching order. -/
def emit (p : Program) : String :=
  let globals0 := p.globalDecls.foldl
    (fun g d => appendIfNew (d.cType ++ " " ++ d.name ++ " = " ++ d.expr ++ ";") g) []
  let (globals1, st1) := setupPass1 p.setupBody globals0 {}
  let (globals2, setupPre, st2) := loopPass1 p.loopBody globals1 [] st1
  let (setupEmit, st3) := emitList p.setupBody "  " true st2
  let setupLines := setupPre ++ setupEmit
  let (loopLines, _) := emitList p.loopBody "  " false st3
  let parts : List String :=
    [HEADER]
    ++ (if globals2.isEmpty then [] else [String.intercalate "\n" globals2 ++ "\n\n"])
    ++ [SETUP_START,
        (if setupLines.isEmpty then "  // no setup actions"
         else String.intercalate "\n" setupLines),
        "\n" ++ SETUP_END,
        LOOP_START,
        (if loopLines.isEmpty then "  // no loop actions"
         else String.intercalate "\n" loopLines),
        "\n" ++ LOOP_END]
  String.join parts

/-- Number of occurrences of a given line in the emitted artifact. -/
def countLine (line out : String) : Nat := (splitOnChar '\n' out).count line

/-- The clamp applied by the generated `set_brightness` block: values below 0
become 0, values above 255 become 255. -/
def clampByte (v : Int) : Int := if v < 0 then 0 else if v > 255 then 255 else v

/-- Straight-line semantics of the C block emitted for `set_brightness`
(transliterated from the emitted lines: initialize from the requested value,
clamp below at 0, clamp above at 255, store into the brightness variable,
then derive the state flag from the stored brightness). -/
def runSetBrightness (v : Int) : Int × Bool :=
  let b0 := v
  let b1 := if b0 < 0 then 0 else b0
  let b2 := if b1 > 255 then 255 else b1
  (b2, decide (b2 > 0))

end Reduino

namespace Reduino

/-- `_indent_of`: indentation of a line counting a space as one column and a
tab as four. -/
def indentOfAux : List Char → Nat
  | [] => 0
  | c :: rest =>
      if c = ' ' then 1 + indentOfAux rest
      else if c = '\t' then 4 + indentOfAux rest
      else 0

/-- `_indent_of` on a line. -/
def indentOf (line : String) : Nat := indentOfAux line.data

/-- A line whose stripped text is empty (Python falsy `strip()`). -/
def isBlankLine (line : String) : Bool := pyStrip line = ""

/-- Membership predicate of `_collect_block`: blank lines always belong to the
block, non-blank lines belong exactly when indented more than the opener. -/
def inBlock (base : Nat) (line : String) : Bool :=
  isBlankLine line || decide (base < indentOf line)

/-- `_collect_block`: the block opened by a statement of indentation `base` is
the longest prefix of the following lines whose members satisfy `inBlock`. -/
def collectBlock (base : Nat) (lines : List String) : List String × List String :=
  (lines.takeWhile (inBlock base), lines.dropWhile (inBlock base))

/-- Identifier shape accepted by the `[A-Za-z_]\w*` groups of the statement
regexes. -/
def isIdent (s : String) : Bool :=
  match s.data with
  | [] => false
  | c :: rest => (c.isAlpha || c = '_') && rest.all (fun d => d.isAlphanum || d = '_')

/-- Split a string at the first occurrence of a character. -/
def splitFirstChar (c : Char) (s : String) : Option (String × String) :=
  match s.data.findIdx? (· = c) with
  | none => none
  | some i => some (String.mk (s.data.take i), String.mk (s.data.drop (i + 1)))

/-- Render a `while`/`if` condition with `_to_c_expr`, restricted to the
boolean/integer/identifier conditions of the mini grammar. -/
def condRender (cond : String) : Option String :=
  let t := pyStrip cond
  if t = "True" then some "true"
  else if t = "False" then some "false"
  else match parseInt? t with
  | some n => some (toString n)
  | none => if isIdent t then some t else none

/-- `_resolve_numeric_arg`: an absent argument takes the default, a foldable
name-free numeric argument becomes its integer value, and a known name is
rendered as a runtime expression. -/
def resolveNumericArg (arg : Option String) (dflt : Int) : Except String PinVal :=
  match arg with
  | none => .ok (.num dflt)
  | some a =>
      let t := pyStrip a
      if t = "" then .ok (.num dflt)
      else match parseInt? t with
      | some n => .ok (.num n)
      | none => if isIdent t then .ok (.expr t) else .error "unsupported argument"

/-- Match `name = Led(args)` (the `RE_LED_DECL` shape) on a stripped line,
returning the bound name and the argument text. -/
def matchLedDecl (line : String) : Option (String × String) :=
  match splitFirstChar '=' line with
  | none => none
  | some (left, right) =>
      let name := pyStrip left
      let rhs := pyStrip right
      if isIdent name ∧ strStarts rhs "Led(" ∧ strEnds rhs ")" then
        some (name, pyStrip ((rhs.drop 4).dropRight 1))
      else none

/-- Match `name.method(args)` (the action-call regexes) on a stripped line. -/
def matchCall (line : String) : Option (String × String × String) :=
  match splitFirstChar '.' line with
  | none => none
  | some (left, right) =>
      let name := pyStrip left
      match splitFirstChar '(' right with
      | none => none
      | some (method, argsPlus) =>
          if isIdent name ∧ isIdent (pyStrip method) ∧ strEnds argsPlus ")" then
            some (name, pyStrip method, pyStrip (argsPlus.dropRight 1))
          else none

/-- Resolve the pin argument of a `Led(...)` declaration: empty defaults to
pin 13, a foldable name-free literal becomes a concrete pin number, a known
name stays a runtime expression. -/
def resolveLedPin (args : String) : Except String PinVal :=
  let a := if strStarts args "pin=" then pyStrip (args.drop 4) else args
  if a = "" then .ok (.num 13)
  else match parseInt? a with
  | some n => .ok (.num n)
  | none => if isIdent a then .ok (.expr a) else .error "unsupported Led pin"

/-- Parse the literal pattern argument of `flash_pattern`: a literal list of
numeric entries is required, anything else is a fatal error. -/
def parsePatternList (inner : String) : Except String (List Int) :=
  if pyStrip inner = "" then .ok []
  else
    let entries := (splitOnChar ',' inner).map (fun e => parseInt? (pyStrip e))
    if entries.all Option.isSome then .ok (entries.map (fun e => e.getD 0))
    else .error "flash_pattern values must be numeric"

/-- Split the `flash_pattern(...)` argument text into the literal list body
and the optional delay argument. -/
def splitFlashArgs (args : String) : Except String (List Int × Option String) :=
  let t := pyStrip args
  if strStarts t "[" then
    match splitFirstChar ']' (t.drop 1) with
    | none => .error "flash_pattern requires a literal pattern list"
    | some (inner, rest) =>
        match parsePatternList inner with
        | .error e => .error e
        | .ok pattern =>
            let r := pyStrip rest
            if r = "" then .ok (pattern, none)
            else if strStarts r "," then .ok (pattern, some (pyStrip (r.drop 1)))
            else .error "flash_pattern requires a literal pattern list"
  else .error "flash_pattern requires a literal pattern list"

/-- Parse one recognized action/declaration line of the LED fragment into a
statement, `none` when the line matches no recognized construct (such lines
are silently skipped), or a fatal error. -/
def parseSimpleLine (line : String) : Except String (Option Stmt) :=
  match matchLedDecl line with
  | some (name, args) =>
      match resolveLedPin args with
      | .error e => .error e
      | .ok pin => .ok (some (.ledDecl name pin))
  | none =>
  if strStarts line "Sleep(" ∧ strEnds line ")" then
    match resolveNumericArg (some ((line.drop 6).dropRight 1)) 0 with
    | .error e => .error e
    | .ok ms => .ok (some (.sleep ms))
  else
    match matchCall line with
    | none => .ok none
    | some (name, method, args) =>
        if method = "on" ∧ args = "" then .ok (some (.ledOn name))
        else if method = "off" ∧ args = "" then .ok (some (.ledOff name))
        else if method = "toggle" ∧ args = "" then .ok (some (.ledToggle name))
        else if method = "set_brightness" then
          match resolveNumericArg (if args = "" then none else some args) 0 with
          | .error e => .error e
          | .ok v => .ok (some (.ledSetBrightness name v))
        else if method = "flash_pattern" then
          match splitFlashArgs args with
          | .error e => .error e
          | .ok (pattern, delayArg) =>
              match resolveNumericArg delayArg 200 with
              | .error e => .error e
              | .ok d => .ok (some (.ledFlashPattern name pattern d))
        else .ok none

/-- The `break` handler of `_parse_simple_lines`: a fatal error outside any
loop, a fatal error when it would break the single outermost repeating-phase
loop itself, and accepted otherwise. -/
def breakCheck (loopDepth : Nat) (mainLoop : Bool) : Except String Unit :=
  if loopDepth = 0 then .error "'break' outside loop is not supported"
  else if mainLoop ∧ loopDepth = 1 then .error "cannot break out of the main loop()"
  else .ok ()

/-- `_parse_simple_lines` on the LED fragment, with an explicit recursion
bound (every recursive call processes a sub-list of the remaining lines, so
the entry line count bounds the recursion depth): blank/comment lines and
unrecognized lines are skipped, `break` is checked against the enclosing-loop
state, `while` opens a nested block with `loop_depth + 1`, and the recognized
single-line statements are appended in order. -/
def parseSimpleLinesF : Nat → List String → Nat → Bool → Except String (List Stmt)
  | _, [], _, _ => .ok []
  | 0, _ :: _, _, _ => .error "recursion bound exhausted"
  | fuel + 1, raw :: rest, loopDepth, mainLoop =>
      let line := pyStrip raw
      if line = "" ∨ strStarts line "#" then
        parseSimpleLinesF fuel rest loopDepth mainLoop
      else if line = "break" then
        match breakCheck loopDepth mainLoop with
        | .error msg => .error msg
        | .ok () =>
          match parseSimpleLinesF fuel rest loopDepth mainLoop with
          | .error msg => .error msg
          | .ok tail => .ok (.breakStmt :: tail)
      else if strStarts line "while " ∧ strEnds line ":" then
        match condRender (pyStrip ((line.drop 6).dropRight 1)) with
        | none => .error "unsupported while condition"
        | some condExpr =>
            match parseSimpleLinesF fuel (collectBlock (indentOf raw) rest).1
                (loopDepth + 1) mainLoop with
            | .error e => .error e
            | .ok body =>
                match parseSimpleLinesF fuel (collectBlock (indentOf raw) rest).2
                    loopDepth mainLoop with
                | .error e => .error e
                | .ok tail => .ok (.whileLoop condExpr body :: tail)
      else
        match parseSimpleLine line with
        | .error e => .error e
        | .ok none => parseSimpleLinesF fuel rest loopDepth mainLoop
        | .ok (some stmt) =>
            match parseSimpleLinesF fuel rest loopDepth mainLoop with
            | .error e => .error e
            | .ok tail => .ok (stmt :: tail)

/-- `_parse_simple_lines` at its natural recursion bound. -/
def parseSimpleLines (snippet : List String) (loopDepth : Nat) (mainLoop : Bool) :
    Except String (List Stmt) :=
  parseSimpleLinesF snippet.length snippet loopDepth mainLoop

/-- `parse`, top level (same explicit recursion bound): an indentation-zero
`while True:` block feeds the repeating phase (`loop_depth=1`,
`main_loop=True`); an indentation-zero conditional `while` is collected with
its block into the startup phase; any other line is parsed as a single
startup statement. -/
def parseTopF : Nat → List String → Except String (List Stmt × List Stmt)
  | _, [] => .ok ([], [])
  | 0, _ :: _ => .error "recursion bound exhausted"
  | fuel + 1, raw :: rest =>
      let text := pyStrip raw
      if text = "" ∨ strStarts text "#" then parseTopF fuel rest
      else if indentOf raw = 0 ∧ text = "while True:" then
        match parseSimpleLines (collectBlock 0 rest).1 1 true with
        | .error e => .error e
        | .ok stmts =>
            match parseTopF fuel (collectBlock 0 rest).2 with
            | .error e => .error e
            | .ok (s, l) => .ok (s, stmts ++ l)
      else if indentOf raw = 0 ∧ strStarts text "while " ∧ strEnds text ":" then
        match parseSimpleLines (raw :: (collectBlock 0 rest).1) 0 false with
        | .error e => .error e
        | .ok stmts =>
            match parseTopF fuel (collectBlock 0 rest).2 with
            | .error e => .error e
            | .ok (s, l) => .ok (stmts ++ s, l)
      else
        match parseSimpleLines [raw] 0 false with
        | .error e => .error e
        | .ok stmts =>
            match parseTopF fuel rest with
            | .error e => .error e
            | .ok (s, l) => .ok (stmts ++ s, l)

/-- `parse` on a source text: split into lines and build the `Program`. -/
def parseProgram (src : String) : Except String Program :=
  let lines := splitOnChar '\n' src
  match parseTopF lines.length lines with
  | .error e => .error e
  | .ok (setupBody, loopBody) =>
      .ok { setupBody := setupBody, loopBody := loopBody }

/-- The full pipeline: parse followed by emit. -/
def transpile (src : String) : Except String String :=
  match parseProgram src with
  | .error e => .error e
  | .ok p => .ok (emit p)

end Reduino

namespace Reduino

/-- `_is_list_type`: does the label denote a list type (`list[T]`)? -/
def isListType (label : String) : Bool :=
  strStarts label "list[" && strEnds label "]"

/-- `_list_element_type`: contained element type of a list label. -/
def listElementType (label : String) : String :=
  if isListType label then ((label.drop 5).dropRight 1) else "int"

/-- `_cpp_type` with an explicit recursion bound (each unwrapping of a
`list[...]` label strictly shortens it, so `label.length` bounds the
nesting). -/
def cppTypeAux : Nat → String → String
  | 0, _ => "int"
  | fuel + 1, py =>
      if isListType py then "__redu_list<" ++ cppTypeAux fuel (listElementType py) ++ ">"
      else if py = "int" then "int"
      else if py = "float" then "float"
      else if py = "bool" then "bool"
      else if py = "String" then "String"
      else if py = "void" then "void"
      else "int"

/-- `_cpp_type`: translate a coarse type label into a C++ declaration type. -/
def cppTypeOf (py : String) : String := cppTypeAux (py.length + 1) py

/-- `_default_value_for_type`: zero-value initializer per C++ type. -/
def defaultValueForType (cType : String) : String :=
  if cType = "bool" then "false"
  else if cType = "float" then "0.0"
  else if cType = "String" then "\"\""
  else if strStarts cType "__redu_list<" then cType ++ "()"
  else "0"

/-- Snapshot of one parsed conditional branch: the declared-name set the
branch started from (`_base_declared`), the declared set and type bindings it
ended with, and its parsed body. -/
structure BranchCtx where
  baseDeclared : List String
  declared : List String
  varTypes : List (String × String)
  body : List Stmt

/-- The names a branch newly declared (`var_declared - _base_declared`). -/
def newDeclared (b : BranchCtx) : List String :=
  b.declared.filter (fun n => ¬ b.baseDeclared.contains n)

/-- One name of the `record` step of `_promote_branch_decls`: skip names
already declared in the enclosing scope, record each remaining name once
(first occurrence order) with the branch-inferred type. -/
def promoteRecordAux (parentDeclared : List String) (tyOf : String → String) :
    List String → List (String × String) → List (String × String)
  | [], acc => acc
  | name :: rest, acc =>
      if parentDeclared.contains name then promoteRecordAux parentDeclared tyOf rest acc
      else if (acc.map Prod.fst).contains name then
        promoteRecordAux parentDeclared tyOf rest acc
      else promoteRecordAux parentDeclared tyOf rest
        (acc ++ [(name, tyOf name)])

/-- The `record` step of `_promote_branch_decls` over one branch. -/
def promoteRecord (parentDeclared : List String)
    (acc : List (String × String)) (b : BranchCtx) : List (String × String) :=
  promoteRecordAux parentDeclared (fun n => (b.varTypes.lookup n).getD "int")
    (newDeclared b) acc

/-- `_promote_branch_decls`: the ordered list of names (with inferred types)
to hoist out of the branches of a conditional. -/
def promoteBranchDecls (branches : List BranchCtx) (elseEntry : Option BranchCtx)
    (parentDeclared : List String) : List (String × String) :=
  let acc := branches.foldl (promoteRecord parentDeclared) []
  match elseEntry with
  | some e => promoteRecord parentDeclared acc e
  | none => acc

/-- Enclosing-scope context threaded through promotion: declared names, type
bindings, and the program-wide globals list. -/
structure PCtx where
  declared : List String
  varTypes : List (String × String)
  globalDecls : List GlobalDecl

/-- `_make_promotion_decls`: one hoisted declaration per promoted name, with a
zero-value initializer; at global scope (`setup`, depth 0) the declaration
joins the globals list (de-duplicated by name) instead of the local body. -/
def makePromotionDecls : List (String × String) → Bool → PCtx → List Stmt × PCtx
  | [], _, ctx => ([], ctx)
  | (name, ty) :: rest, isGlobal, ctx =>
      let cpp := cppTypeOf ty
      let ctx' : PCtx :=
        { declared := if ctx.declared.contains name then ctx.declared
                      else ctx.declared ++ [name]
          varTypes := if (ctx.varTypes.lookup name).isSome then ctx.varTypes
                      else updA name "int" ctx.varTypes
          globalDecls :=
            if isGlobal then
              if (ctx.globalDecls.map GlobalDecl.name).contains name then
                ctx.globalDecls
              else ctx.globalDecls ++ [⟨name, cpp, defaultValueForType cpp⟩]
            else ctx.globalDecls }
      let tail := makePromotionDecls rest isGlobal ctx'
      ((if isGlobal then tail.1
        else Stmt.varDecl name cpp (defaultValueForType cpp) false :: tail.1),
       tail.2)

mutual

/-- The branch-rewrite pass applied after promotion in the `if` handler of
`_parse_simple_lines`: declarations of promoted names become plain
assignments; the rewrite recurses into nested conditionals only. -/
def rewriteIfS (promoted : List String) : Stmt → Stmt
  | .varDecl name cType expr g =>
      if promoted.contains name then .varAssign name expr
      else .varDecl name cType expr g
  | .ifStmt branches elseBody =>
      .ifStmt (rewriteIfBranches promoted branches) (rewriteIfL promoted elseBody)
  | s => s

/-- Rewrite over conditional branches. -/
def rewriteIfBranches (promoted : List String) :
    List (String × List Stmt) → List (String × List Stmt)
  | [] => []
  | (c, b) :: rest => (c, rewriteIfL promoted b) :: rewriteIfBranches promoted rest

/-- Rewrite over a statement list. -/
def rewriteIfL (promoted : List String) : List Stmt → List Stmt
  | [] => []
  | s :: rest => rewriteIfS promoted s :: rewriteIfL promoted rest

end

mutual

/-- Number of declarations of a given name anywhere in a statement
(including every nested body). -/
def declCountS (x : String) : Stmt → Nat
  | .varDecl name _ _ _ => if name = x then 1 else 0
  | .ifStmt branches elseBody => declCountBranches x branches + declCountL x elseBody
  | .whileLoop _ body => declCountL x body
  | .forRange _ _ body => declCountL x body
  | _ => 0

/-- Declaration count over conditional branches. -/
def declCountBranches (x : String) : List (String × List Stmt) → Nat
  | [] => 0
  | (_, b) :: rest => declCountL x b + declCountBranches x rest

/-- Declaration count over a statement list. -/
def declCountL (x : String) : List Stmt → Nat
  | [] => 0
  | s :: rest => declCountS x s + declCountL x rest

end

mutual

/-- No declaration of the given name occurs inside any loop body of the
statement (the parser's own loop handlers hoist such declarations before the
`if` promotion pass ever sees a branch body). -/
def loopDeclFreeS (x : String) : Stmt → Bool
  | .ifStmt branches elseBody =>
      loopDeclFreeBranches x branches && loopDeclFreeL x elseBody
  | .whileLoop _ body => declCountL x body == 0
  | .forRange _ _ body => declCountL x body == 0
  | _ => true

/-- Loop-freedom over conditional branches. -/
def loopDeclFreeBranches (x : String) : List (String × List Stmt) → Bool
  | [] => true
  | (_, b) :: rest => loopDeclFreeL x b && loopDeclFreeBranches x rest

/-- Loop-freedom over a statement list. -/
def loopDeclFreeL (x : String) : List Stmt → Bool
  | [] => true
  | s :: rest => loopDeclFreeS x s && loopDeclFreeL x rest

end

/-- Assembly performed by the `if` handler after the branches are parsed:
compute the promoted names, record their merged types in the parent scope,
rewrite every branch, and place the hoisted declarations immediately before
the conditional node. -/
def assembleIf (conds : List String) (branches : List BranchCtx)
    (elseEntry : Option BranchCtx) (isGlobal : Bool) (ctx : PCtx) :
    List Stmt × PCtx :=
  let order := promoteBranchDecls branches elseEntry ctx.declared
  let ctx := { ctx with varTypes := order.foldl (fun m p => updA p.1 p.2 m) ctx.varTypes }
  let names := order.map Prod.fst
  let rewrittenBranches :=
    (conds.zip (branches.map BranchCtx.body)).map
      (fun p => (p.1, if names.isEmpty then p.2 else rewriteIfL names p.2))
  let elseBody :=
    match elseEntry with
    | some e => if names.isEmpty then e.body else rewriteIfL names e.body
    | none => []
  let mp := makePromotionDecls order isGlobal ctx
  (mp.1 ++ [Stmt.ifStmt rewrittenBranches elseBody], mp.2)

/-- Concrete call-site signature: the tuple of argument type labels. -/
abbrev Sig := List String

/-- A specialized function definition (`FunctionDef`). -/
structure FunDefE where
  name : String
  params : List (String × String)
  returnType : String
deriving DecidableEq, Repr

/-- `_resolve_signature_alias`: canonical signature under the alias table. -/
def resolveSignatureAlias (aliases : List (Sig × Sig)) (sig : Sig) : Sig :=
  (aliases.lookup sig).getD sig

/-- The specialization-selection loop at the end of `parse`: keep, in request
order and de-duplicated, the canonical form of every call-site signature that
has a cached variant; a never-called function keeps its primary (or, failing
that, first-parsed) specialization only. -/
def selectFunctions (variants : List (Sig × FunDefE)) (used : List Sig)
    (primary : Option Sig) (aliases : List (Sig × Sig)) : List FunDefE :=
  let keep : List Sig :=
    if used.isEmpty then
      match primary with
      | some c =>
          if (variants.lookup c).isSome then [c]
          else
            match variants with
            | [] => []
            | (s, _) :: _ => [s]
      | none =>
          match variants with
          | [] => []
          | (s, _) :: _ => [s]
    else
      used.foldl (fun keep sig =>
        let c := resolveSignatureAlias aliases sig
        if (variants.lookup c).isSome ∧ ¬ keep.contains c then keep ++ [c]
        else keep) []
  keep.filterMap (fun s => variants.lookup s)

/-- The list-reassignment guard of `_handle_assignment_ast` for a name already
declared with a list type: the right-hand side must still be a list, a
statically-known length must match the recorded one, and the element type must
match the recorded element type. -/
def checkListReassign (existingType inferredType : String)
    (recordedLen newLen : Option Int) : Except String Unit :=
  if ¬ isListType inferredType then .error "cannot assign non-list to list variable"
  else
    let mismatch :=
      match recordedLen, newLen with
      | some e, some n => decide (e ≠ n)
      | _, _ => false
    if mismatch then .error "list assignment size mismatch"
    else if listElementType existingType ≠ listElementType inferredType then
      .error "conflicting list element types"
    else .ok ()

/-- `_infer_expr_type` on the scalar sub-grammar, threading the type-binding
table because inferring a binary expression with a `String` side retroactively
widens a narrower `Name` operand's binding. -/
def inferExprType (types : List (String × String)) : Expr → String × List (String × String)
  | .intLit _ => ("int", types)
  | .boolLit _ => ("bool", types)
  | .strLit _ => ("String", types)
  | .name id => ((types.lookup id).getD "int", types)
  | .un op e =>
      match op with
      | .unot => ("bool", types)
      | _ => inferExprType types e
  | .cmp _ _ _ => ("bool", types)
  | .ternary _ b o =>
      let (bt, types) := inferExprType types b
      let (et, types) := inferExprType types o
      (if bt = et then bt
       else if bt = "String" ∨ et = "String" then "String"
       else if bt = "float" ∨ et = "float" then "float"
       else "int", types)
  | .bin _ l r =>
      let (lt, types) := inferExprType types l
      let (rt, types) := inferExprType types r
      if lt = "String" ∨ rt = "String" then
        let types :=
          match l with
          | .name id => if lt ≠ "String" then updA id "String" types else types
          | _ => types
        let types :=
          match r with
          | .name id => if rt ≠ "String" then updA id "String" types else types
          | _ => types
        ("String", types)
      else if lt = "float" ∨ rt = "float" then ("float", types)
      else ("int", types)

/-- The first-assignment handler of `_handle_assignment_ast` for a new name at
the top level of the startup scope: the global declaration carries the
rendered right-hand side when the constant evaluator folded it and it
references no names, and otherwise carries a type-appropriate zero value with
the real value assigned by a runtime statement placed immediately after. -/
def firstAssignGlobal (name : String) (e : Expr) (env : List (String × EnvVal))
    (types : List (String × String)) : GlobalDecl × List Stmt :=
  let exprC := toCExpr e
  let isConst := (evalConst env e).isSome
  let usesNames := exprHasName e
  let (inferred, _) := inferExprType types e
  let cpp := cppTypeOf inferred
  let needsRuntime := !isConst || usesNames
  let init := if needsRuntime then defaultValueForType cpp else exprC
  (⟨name, cpp, init⟩, if needsRuntime then [Stmt.varAssign name exprC] else [])

end Reduino

namespace Reduino

/-- The spec's representative startup program: a dimmable output on pin 5,
`on()`, `off()`, then `set_brightness(128)`. -/
def exampleSrc : String := "led = Led(5)\nled.on()\nled.off()\nled.set_brightness(128)"

/-- The artifact the pipeline produces for `exampleSrc`. -/
def exampleOut : String :=
  match transpile exampleSrc with
  | .ok s => s
  | .error e => e

/-- A repeating-phase program that re-declares the same LED on the same pin
twice inside `while True:`. -/
def dupLedSrc : String := "while True:\n    l = Led(5)\n    l = Led(5)"

theorem emitList_cons (a : Stmt) (rest : List Stmt) (ind : String) (b : Bool)
    (st : EmitSt) :
    emitList (a :: rest) ind b st =
      ((emitS a ind b st).1 ++ (emitList rest ind b (emitS a ind b st).2).1,
       (emitList rest ind b (emitS a ind b st).2).2) := by
  rcases h : emitS a ind b st with ⟨l, st2⟩
  rcases h2 : emitList rest ind b st2 with ⟨ls, st3⟩
  simp [emitList, h, h2]

theorem emitList_append (xs : List Stmt) : ∀ (ys : List Stmt) (ind : String)
    (b : Bool) (st : EmitSt),
    emitList (xs ++ ys) ind b st =
      ((emitList xs ind b st).1 ++
        (emitList ys ind b (emitList xs ind b st).2).1,
       (emitList ys ind b (emitList xs ind b st).2).2) := by
  induction xs with
  | nil => intro ys ind b st; simp [emitList]
  | cons a xs ih =>
      intro ys ind b st
      rw [List.cons_append, emitList_cons, ih, emitList_cons]
      simp

/-- C9: the expression translator renders the floor-division operator with the
same target token as true division — for all operand expressions the rendered
text of `a // b` equals that of `a / b` — even though the constant evaluator
computes `//` as genuine floor division (`Int.fdiv`, which rounds toward
negative infinity) when it folds, while `/` folds to an exact quotient. -/
theorem c9_floordiv_renders_like_div :
    (∀ a b : Expr, toCExpr (.bin .floorDiv a b) = toCExpr (.bin .divOp a b))
    ∧ binToken .floorDiv = binToken .divOp
    ∧ (∀ x y : Int, y ≠ 0 →
        applyBin .floorDiv (.vInt x) (.vInt y) = some (.vInt (Int.fdiv x y)))
    ∧ applyBin .floorDiv (.vInt 7) (.vInt 2) = some (.vInt 3)
    ∧ applyBin .divOp (.vInt 7) (.vInt 2) = some (.vFloat ((7 : Rat) / 2))
    ∧ Int.fdiv (-7) 2 = -4 := by
  refine ⟨fun a b => rfl, rfl, ?_, by decide, ?_, by decide⟩
  · intro x y hy
    simp [applyBin, asNum, applyBinInt, hy]
  · show applyBinInt .divOp 7 2 = some (.vFloat ((7 : Rat) / 2))
    norm_num [applyBinInt]

theorem c9_floordiv_renders_like_div_witness :
    (2 : Int) ≠ 0 ∧
      applyBin .floorDiv (.vInt 7) (.vInt 2) = some (.vInt (Int.fdiv 7 2)) :=
  ⟨by decide, c9_floordiv_renders_like_div.2.2.1 7 2 (by decide)⟩

/-- C2: the code generated for `set_brightness` first clamps the requested
value into [0, 255] (below 0 becomes 0, above 255 becomes 255), stores the
clamped value into the brightness variable, and derives the state flag from
that stored clamped brightness — the emitted lines follow exactly that
template, and their straight-line semantics is `clampByte` with the state
computed from the clamped value; in particular −5 clamps to 0 and 500 to
255 before the state update. -/
theorem c2_set_brightness_clamps_before_state :
    (∀ (name : String) (v : PinVal) (indent : String) (inSetup : Bool)
       (st : EmitSt) (pinCode stateVar brightVar : String) (st2 : EmitSt),
      ensureLedTracking name st = (pinCode, stateVar, brightVar, st2) →
      (emitS (.ledSetBrightness name v) indent inSetup st).1 =
        [indent ++ "\x7b",
         indent ++ "  int __redu_brightness = " ++ emitExprV v ++ ";",
         indent ++ "  if (__redu_brightness < 0) \x7b __redu_brightness = 0; \x7d",
         indent ++ "  if (__redu_brightness > 255) \x7b __redu_brightness = 255; \x7d",
         indent ++ "  " ++ brightVar ++ " = __redu_brightness;",
         indent ++ "  " ++ stateVar ++ " = " ++ brightVar ++ " > 0;",
         indent ++ "  analogWrite(" ++ pinCode ++ ", " ++ brightVar ++ ");",
         indent ++ "\x7d"])
    ∧ (∀ n : Int, runSetBrightness n = (clampByte n, decide (clampByte n > 0)))
    ∧ runSetBrightness (-5) = (0, false)
    ∧ runSetBrightness 500 = (255, true)
    ∧ clampByte (-5) = 0 ∧ clampByte 500 = 255 := by
  refine ⟨?_, ?_, rfl, rfl, by decide, by decide⟩
  · intro name v indent inSetup st pinCode stateVar brightVar st2 h
    simp [emitS, h]
  · intro n
    have hb : (if (if n < 0 then 0 else n) > 255 then 255
               else (if n < 0 then 0 else n)) = clampByte n := by
      unfold clampByte
      split_ifs <;> omega
    simp only [runSetBrightness, hb]

theorem c2_set_brightness_clamps_before_state_witness :
    ensureLedTracking "led" {} =
      ("13", "__state_led", "__brightness_led",
        { ledState := [("led", "__state_led")],
          ledBrightness := [("led", "__brightness_led")] })
    ∧ (emitS (.ledSetBrightness "led" (.num (-5))) "  " true {}).1 =
      ["  \x7b",
       "    int __redu_brightness = -5;",
       "    if (__redu_brightness < 0) \x7b __redu_brightness = 0; \x7d",
       "    if (__redu_brightness > 255) \x7b __redu_brightness = 255; \x7d",
       "    __brightness_led = __redu_brightness;",
       "    __state_led = __brightness_led > 0;",
       "    analogWrite(13, __brightness_led);",
       "  \x7d"] :=
  ⟨rfl, c2_set_brightness_clamps_before_state.1 "led" (.num (-5)) "  " true {}
    "13" "__state_led" "__brightness_led" _ rfl⟩

/-- C10: a `flash_pattern` whose literal pattern list is empty is dropped
entirely by the code generator — it emits no lines and leaves the emitter
state untouched, so inserting it anywhere in a statement sequence leaves the
emitted output unchanged — and the parser turns `flash_pattern([])` into
exactly such an empty-pattern node. -/
theorem c10_empty_flash_pattern_dropped :
    (∀ (name : String) (d : PinVal) (indent : String) (inSetup : Bool)
       (st : EmitSt),
      emitS (.ledFlashPattern name [] d) indent inSetup st = ([], st))
    ∧ (∀ (xs ys : List Stmt) (name : String) (d : PinVal) (indent : String)
         (inSetup : Bool) (st : EmitSt),
        emitList (xs ++ .ledFlashPattern name [] d :: ys) indent inSetup st =
          emitList (xs ++ ys) indent inSetup st)
    ∧ parseSimpleLine "led.flash_pattern([])" =
        .ok (some (.ledFlashPattern "led" [] (.num 200))) := by
  refine ⟨fun name d indent inSetup st => rfl, ?_, rfl⟩
  intro xs ys name d indent inSetup st
  rw [emitList_append, emitList_append, emitList_cons]
  simp only [show ∀ st' : EmitSt,
      emitS (Stmt.ledFlashPattern name [] d) indent inSetup st' = ([], st')
    from fun _ => rfl]
  simp

/-- C1: the pipeline (parse then emit) is a function of the source text alone,
so two runs on the same input that both succeed produce byte-identical
output. -/
theorem c1_translation_deterministic :
    ∀ (src out1 out2 : String),
      transpile src = .ok out1 → transpile src = .ok out2 → out1 = out2 := by
  intro src o1 o2 h1 h2
  rw [h1] at h2
  injection h2

theorem c1_translation_deterministic_witness :
    transpile exampleSrc = .ok exampleOut ∧ exampleOut = exampleOut := by
  have h : transpile exampleSrc = .ok exampleOut := rfl
  exact ⟨h, c1_translation_deterministic exampleSrc exampleOut exampleOut h h⟩

end Reduino

namespace Reduino

/-- C8: parsing `break` raises a fatal error exactly when it lies outside any
enclosing loop (`loop_depth = 0`) or would break the single outermost
repeating-phase loop itself (`main_loop` with `loop_depth = 1`); one loop
deeper inside the repeating phase it is accepted and emitted as a plain
`break;` of its innermost loop — shown both on the decision function and on
the full pipeline. -/
theorem c8_break_scope_rules :
    (∀ (d : Nat) (m : Bool),
      breakCheck d m = .ok () ↔ ¬(d = 0 ∨ (m = true ∧ d = 1)))
    ∧ breakCheck 0 false = .error "'break' outside loop is not supported"
    ∧ breakCheck 1 true = .error "cannot break out of the main loop()"
    ∧ (∀ (d : Nat) (m : Bool), ¬(d = 0 ∨ (m = true ∧ d = 1)) →
        parseSimpleLines ["break"] d m = .ok [.breakStmt])
    ∧ transpile "while True:\n    break" =
        .error "cannot break out of the main loop()"
    ∧ transpile "break" = .error "'break' outside loop is not supported"
    ∧ (∃ out, transpile "while True:\n    while x:\n        break" = .ok out ∧
        countLine "    break;" out = 1) := by
  have hiff : ∀ (d : Nat) (m : Bool),
      breakCheck d m = .ok () ↔ ¬(d = 0 ∨ (m = true ∧ d = 1)) := by
    intro d m
    unfold breakCheck
    split_ifs with h1 h2 <;> simp_all
  refine ⟨hiff, rfl, rfl, ?_, rfl, rfl, ⟨_, rfl, by decide⟩⟩
  intro d m h
  have hb : breakCheck d m = .ok () := (hiff d m).mpr h
  have hstep : parseSimpleLines ["break"] d m =
      (match breakCheck d m with
       | .error msg => .error msg
       | .ok () => .ok [Stmt.breakStmt]) := rfl
  rw [hstep, hb]

theorem c8_break_scope_rules_witness :
    ¬((2 : Nat) = 0 ∨ (true = true ∧ (2 : Nat) = 1)) ∧
      parseSimpleLines ["break"] 2 true = .ok [.breakStmt] :=
  ⟨by decide, c8_break_scope_rules.2.2.2.1 2 true (by decide)⟩

/-- C6 (divergence witness): an LED declaration appearing in the repeating
phase appends its `pinMode` setup line unconditionally — no
`(instance, pin, mode)` dedup key is consulted on that path — so re-declaring
the same LED on the same pin inside `while True:` emits the pinMode statement
twice, where the spec requires exactly once per combination. -/
theorem c6_loop_led_redecl_duplicates_pinmode :
    ∃ out, transpile dupLedSrc = .ok out ∧
      countLine "  pinMode(5, OUTPUT);" out = 2 ∧
      ¬ countLine "  pinMode(5, OUTPUT);" out = 1 :=
  ⟨_, rfl, by decide, by decide⟩

/-- C3: reassigning an already-declared list-typed variable succeeds exactly
when the right-hand side is still a list, any statically-known new length
matches the recorded one, and the element types agree — so a known length
change (`[1,2]` then `[3]`) or an element-type change is a fatal error, which
aborts `parse` before any artifact is emitted. -/
theorem c3_list_reassign_rejected :
    (∀ (et it : String) (r n : Option Int),
      checkListReassign et it r n = .ok () ↔
        (isListType it = true ∧
         (match r, n with
          | some a, some b => a = b
          | _, _ => True) ∧
         listElementType et = listElementType it))
    ∧ checkListReassign "list[int]" "list[int]" (some 2) (some 1) =
        .error "list assignment size mismatch"
    ∧ checkListReassign "list[int]" "list[String]" (some 2) (some 2) =
        .error "conflicting list element types"
    ∧ checkListReassign "list[int]" "int" none (some 1) =
        .error "cannot assign non-list to list variable" := by
  refine ⟨?_, rfl, rfl, rfl⟩
  intro et it r n
  unfold checkListReassign
  by_cases hit : isListType it = true
  · cases r with
    | none =>
        cases n <;>
          · by_cases helem : listElementType et = listElementType it <;>
              simp_all
    | some a =>
        cases n with
        | none =>
            by_cases helem : listElementType et = listElementType it <;> simp_all
        | some b =>
            by_cases hab : a = b
            · by_cases helem : listElementType et = listElementType it <;>
                simp_all
            · simp_all
  · simp_all

theorem c3_list_reassign_rejected_witness :
    checkListReassign "list[int]" "list[int]" (some 2) (some 2) = .ok () :=
  (c3_list_reassign_rejected.1 "list[int]" "list[int]" (some 2) (some 2)).mpr
    (by refine ⟨by decide, by decide, by decide⟩)

/-- C7: the first assignment to a new name at the top level of the startup
scope declares a global whose initializer is the rendered right-hand side
exactly when the constant evaluator folds the expression and the expression
references no names; otherwise the global is declared with the
type-appropriate zero value and a runtime assignment of the real value is
emitted immediately after the declaration. -/
theorem c7_global_initializer_split :
    ∀ (name : String) (e : Expr) (env : List (String × EnvVal))
      (types : List (String × String)),
      (((evalConst env e).isSome ∧ exprHasName e = false) →
        ((firstAssignGlobal name e env types).1.expr = toCExpr e ∧
         (firstAssignGlobal name e env types).2 = []))
      ∧ (¬((evalConst env e).isSome ∧ exprHasName e = false) →
        ((firstAssignGlobal name e env types).1.expr =
            defaultValueForType (firstAssignGlobal name e env types).1.cType ∧
         (firstAssignGlobal name e env types).2 =
            [Stmt.varAssign name (toCExpr e)])) := by
  intro name e env types
  constructor
  · rintro ⟨h1, h2⟩
    simp [firstAssignGlobal, h1, h2]
  · intro h
    by_cases hc : (evalConst env e).isSome <;>
      by_cases hn : exprHasName e <;>
        simp_all [firstAssignGlobal]

theorem c7_global_initializer_split_witness :
    ((evalConst [] (Expr.intLit 3)).isSome ∧ exprHasName (Expr.intLit 3) = false)
    ∧ (firstAssignGlobal "x" (.intLit 3) [] []).1.expr = toCExpr (.intLit 3)
    ∧ (firstAssignGlobal "x" (.intLit 3) [] []).2 = [] := by
  have h : (evalConst [] (Expr.intLit 3)).isSome ∧
      exprHasName (Expr.intLit 3) = false := by decide
  have h2 := (c7_global_initializer_split "x" (.intLit 3) [] []).1 h
  exact ⟨h, h2⟩

end Reduino

namespace Reduino

end Reduino

namespace Reduino

/-- C5: overload selection is minimal — two call-site signatures whose
canonical forms are distinct cached variants keep exactly those two
specialized definitions (any further cached variant is dropped), and a
function that is never called keeps exactly one definition (its primary, or
failing that its first-parsed, specialization). -/
theorem c5_overload_selection_minimal :
    (∀ (variants : List (Sig × FunDefE)) (aliases : List (Sig × Sig))
       (primary : Option Sig) (s1 s2 : Sig) (f1 f2 : FunDefE),
      s1 ≠ s2 →
      resolveSignatureAlias aliases s1 ≠ resolveSignatureAlias aliases s2 →
      variants.lookup (resolveSignatureAlias aliases s1) = some f1 →
      variants.lookup (resolveSignatureAlias aliases s2) = some f2 →
      selectFunctions variants [s1, s2] primary aliases = [f1, f2])
    ∧ (∀ (variants : List (Sig × FunDefE)) (primary : Option Sig)
         (aliases : List (Sig × Sig)),
        variants ≠ [] →
        (selectFunctions variants [] primary aliases).length = 1) := by
  constructor
  · intro variants aliases primary s1 s2 f1 f2 hs hne h1 h2
    have hc1 : (variants.lookup (resolveSignatureAlias aliases s1)).isSome = true := by
      simp [h1]
    have hc2 : (variants.lookup (resolveSignatureAlias aliases s2)).isSome = true := by
      simp [h2]
    have g1 : (variants.lookup (resolveSignatureAlias aliases s1)).isSome = true ∧
        ¬ (([] : List Sig).contains (resolveSignatureAlias aliases s1) = true) :=
      ⟨hc1, by simp⟩
    have g2 : (variants.lookup (resolveSignatureAlias aliases s2)).isSome = true ∧
        ¬ (([resolveSignatureAlias aliases s1]).contains
            (resolveSignatureAlias aliases s2) = true) := by
      refine ⟨hc2, ?_⟩
      simp only [List.contains_cons, List.contains_nil, Bool.or_false, beq_iff_eq]
      exact fun h => hne h.symm
    simp only [selectFunctions, List.isEmpty_cons, Bool.false_eq_true, if_false,
      List.foldl]
    rw [if_pos g1, List.nil_append, if_pos g2]
    simp [h1, h2]
  · intro variants primary aliases hv
    cases variants with
    | nil => exact absurd rfl hv
    | cons p rest =>
        rcases p with ⟨s, g⟩
        cases primary with
        | none => simp [selectFunctions, List.lookup]
        | some c =>
            by_cases hc : ((List.lookup c ((s, g) :: rest))).isSome
            · rcases Option.isSome_iff_exists.mp hc with ⟨f, hf⟩
              simp [selectFunctions, hf]
            · rw [Option.not_isSome_iff_eq_none] at hc
              simp only [selectFunctions, hc]
              simp [List.lookup]

theorem c5_overload_selection_minimal_witness :
    (["int", "int"] : Sig) ≠ ["String", "String"] ∧
      selectFunctions
        [(["int", "int"], ⟨"add", [("a", "int"), ("b", "int")], "int"⟩),
         (["String", "String"], ⟨"add", [("a", "String"), ("b", "String")], "String"⟩),
         (["float", "float"], ⟨"add", [("a", "float"), ("b", "float")], "float"⟩)]
        [["int", "int"], ["String", "String"]] none [] =
        [⟨"add", [("a", "int"), ("b", "int")], "int"⟩,
         ⟨"add", [("a", "String"), ("b", "String")], "String"⟩] :=
  ⟨by decide,
    c5_overload_selection_minimal.1
      [(["int", "int"], ⟨"add", [("a", "int"), ("b", "int")], "int"⟩),
       (["String", "String"], ⟨"add", [("a", "String"), ("b", "String")], "String"⟩),
       (["float", "float"], ⟨"add", [("a", "float"), ("b", "float")], "float"⟩)]
      [] none ["int", "int"] ["String", "String"] _ _
      (by decide) (by decide) (by decide) (by decide)⟩

end Reduino

namespace Reduino

theorem containsTrueIff (l : List String) (x : String) :
    l.contains x = true ↔ x ∈ l := List.elem_iff

theorem promoteRecordAux_mem_mono (pd : List String) (tyOf : String → String) :
    ∀ (names : List String) (acc : List (String × String)) (x : String),
      x ∈ acc.map Prod.fst →
      x ∈ (promoteRecordAux pd tyOf names acc).map Prod.fst := by
  intro names
  induction names with
  | nil => intro acc x hx; exact hx
  | cons n rest ih =>
      intro acc x hx
      simp only [promoteRecordAux]
      split_ifs with h1 h2
      · exact ih acc x hx
      · exact ih acc x hx
      · refine ih _ x ?_
        simp only [List.map_append, List.mem_append]
        exact Or.inl hx

theorem promoteRecordAux_nodup (pd : List String) (tyOf : String → String) :
    ∀ (names : List String) (acc : List (String × String)),
      (acc.map Prod.fst).Nodup →
      ((promoteRecordAux pd tyOf names acc).map Prod.fst).Nodup := by
  intro names
  induction names with
  | nil => intro acc h; exact h
  | cons n rest ih =>
      intro acc h
      simp only [promoteRecordAux]
      split_ifs with h1 h2
      · exact ih acc h
      · exact ih acc h
      · refine ih _ ?_
        have hn : n ∉ acc.map Prod.fst := by
          intro hmem
          exact h2 ((containsTrueIff _ n).mpr hmem)
        simp only [List.map_append, List.map_cons, List.map_nil]
        simp [List.nodup_append, h, hn]

theorem promoteRecordAux_mem_add (pd : List String) (tyOf : String → String) :
    ∀ (names : List String) (acc : List (String × String)) (x : String),
      x ∈ names → pd.contains x = false →
      x ∈ (promoteRecordAux pd tyOf names acc).map Prod.fst := by
  intro names
  induction names with
  | nil => intro acc x hx; intro _; simp at hx
  | cons n rest ih =>
      intro acc x hx hpd
      simp only [promoteRecordAux]
      rcases List.mem_cons.mp hx with rfl | hx'
      · split_ifs with h1 h2
        · rw [hpd] at h1; exact absurd h1 (by simp)
        · exact promoteRecordAux_mem_mono pd tyOf rest acc x
            ((containsTrueIff _ x).mp h2)
        · refine promoteRecordAux_mem_mono pd tyOf rest _ x ?_
          simp
      · split_ifs with h1 h2
        · exact ih acc x hx' hpd
        · exact ih acc x hx' hpd
        · exact ih _ x hx' hpd

theorem promoteRecord_mem_mono (pd : List String) (b : BranchCtx)
    (acc : List (String × String)) (x : String) (hx : x ∈ acc.map Prod.fst) :
    x ∈ (promoteRecord pd acc b).map Prod.fst :=
  promoteRecordAux_mem_mono pd _ (newDeclared b) acc x hx

theorem promoteRecord_nodup (pd : List String) (b : BranchCtx)
    (acc : List (String × String)) (h : (acc.map Prod.fst).Nodup) :
    ((promoteRecord pd acc b).map Prod.fst).Nodup :=
  promoteRecordAux_nodup pd _ (newDeclared b) acc h

theorem promote_foldl_mem (pd : List String) (x : String)
    (hpd : pd.contains x = false) :
    ∀ (bs : List BranchCtx) (acc : List (String × String)),
      (x ∈ acc.map Prod.fst ∨ ∃ b ∈ bs, x ∈ newDeclared b) →
      x ∈ (bs.foldl (promoteRecord pd) acc).map Prod.fst := by
  intro bs
  induction bs with
  | nil =>
      intro acc h
      rcases h with h | ⟨b, hb, _⟩
      · exact h
      · simp at hb
  | cons b bs ih =>
      intro acc h
      rcases h with h | ⟨b', hb', hxb⟩
      · exact ih _ (Or.inl (promoteRecord_mem_mono pd b acc x h))
      · rcases List.mem_cons.mp hb' with rfl | hb''
        · exact ih _ (Or.inl
            (promoteRecordAux_mem_add pd _ (newDeclared b') acc x hxb hpd))
        · exact ih _ (Or.inr ⟨b', hb'', hxb⟩)

theorem promote_foldl_nodup (pd : List String) :
    ∀ (bs : List BranchCtx) (acc : List (String × String)),
      (acc.map Prod.fst).Nodup →
      ((bs.foldl (promoteRecord pd) acc).map Prod.fst).Nodup := by
  intro bs
  induction bs with
  | nil => intro acc h; exact h
  | cons b bs ih => intro acc h; exact ih _ (promoteRecord_nodup pd b acc h)

theorem promoteBranchDecls_count_one (branches : List BranchCtx)
    (elseEntry : Option BranchCtx) (pd : List String) (x : String)
    (hpd : pd.contains x = false)
    (hb : ∃ b ∈ branches, x ∈ newDeclared b) :
    ((promoteBranchDecls branches elseEntry pd).map Prod.fst).count x = 1 := by
  have hmem : x ∈ (promoteBranchDecls branches elseEntry pd).map Prod.fst := by
    unfold promoteBranchDecls
    cases elseEntry with
    | none => exact promote_foldl_mem pd x hpd branches [] (Or.inr hb)
    | some e =>
        exact promoteRecord_mem_mono pd e _ x
          (promote_foldl_mem pd x hpd branches [] (Or.inr hb))
  have hnodup : ((promoteBranchDecls branches elseEntry pd).map Prod.fst).Nodup := by
    unfold promoteBranchDecls
    cases elseEntry with
    | none => exact promote_foldl_nodup pd branches [] (by simp)
    | some e =>
        exact promoteRecord_nodup pd e _ (promote_foldl_nodup pd branches [] (by simp))
  exact List.count_eq_one_of_mem hnodup hmem

theorem makePromotionDecls_fst_local :
    ∀ (order : List (String × String)) (ctx : PCtx),
      (makePromotionDecls order false ctx).1 =
        order.map (fun p => Stmt.varDecl p.1 (cppTypeOf p.2)
          (defaultValueForType (cppTypeOf p.2)) false) := by
  intro order
  induction order with
  | nil => intro ctx; rfl
  | cons p rest ih =>
      intro ctx
      rcases p with ⟨n, t⟩
      simp only [makePromotionDecls, List.map_cons, if_neg (by simp : ¬False)]
      rw [ih]
      simp

theorem declCountL_append (x : String) :
    ∀ (l1 l2 : List Stmt),
      declCountL x (l1 ++ l2) = declCountL x l1 + declCountL x l2 := by
  intro l1
  induction l1 with
  | nil => intro l2; simp [declCountL]
  | cons s rest ih =>
      intro l2
      simp only [List.cons_append, declCountL, List.append_eq]
      rw [ih]
      omega

theorem declCountL_varDecls (x : String) :
    ∀ (order : List (String × String)),
      declCountL x (order.map (fun p => Stmt.varDecl p.1 (cppTypeOf p.2)
          (defaultValueForType (cppTypeOf p.2)) false)) =
        (order.map Prod.fst).count x := by
  intro order
  induction order with
  | nil => rfl
  | cons p rest ih =>
      rcases p with ⟨n, t⟩
      simp only [List.map_cons, declCountL, declCountS, ih, List.count_cons]
      by_cases h : n = x
      · simp [h]
        omega
      · simp [h]

mutual

theorem rewriteKillsS (x : String) (promoted : List String)
    (hx : promoted.contains x = true) :
    ∀ s : Stmt, loopDeclFreeS x s = true →
      declCountS x (rewriteIfS promoted s) = 0
  | .varDecl name cType expr g, _ => by
      by_cases hn : promoted.contains name = true
      · have hn2 : name ∈ promoted := (containsTrueIff _ _).mp hn
        simp [rewriteIfS, declCountS, hn2]
      · have hne : ¬ name = x := by
          intro h
          subst h
          exact hn hx
        have hn2 : name ∉ promoted := fun hm => hn ((containsTrueIff _ _).mpr hm)
        simp [rewriteIfS, declCountS, hn2, hne]
  | .ifStmt branches elseB, h => by
      have hb : loopDeclFreeBranches x branches = true ∧
          loopDeclFreeL x elseB = true := by
        simpa [loopDeclFreeS, Bool.and_eq_true] using h
      simp only [rewriteIfS, declCountS]
      rw [rewriteKillsBranches x promoted hx branches hb.1,
        rewriteKillsL x promoted hx elseB hb.2]
  | .whileLoop c b, h => by
      have hz : declCountL x b = 0 := by
        simpa [loopDeclFreeS] using h
      simp [rewriteIfS, declCountS, hz]
  | .forRange v n b, h => by
      have hz : declCountL x b = 0 := by
        simpa [loopDeclFreeS] using h
      simp [rewriteIfS, declCountS, hz]
  | .varAssign n e, _ => by simp [rewriteIfS, declCountS]
  | .exprStmt e, _ => by simp [rewriteIfS, declCountS]
  | .breakStmt, _ => by simp [rewriteIfS, declCountS]
  | .sleep ms, _ => by simp [rewriteIfS, declCountS]
  | .ledDecl n p, _ => by simp [rewriteIfS, declCountS]
  | .ledOn n, _ => by simp [rewriteIfS, declCountS]
  | .ledOff n, _ => by simp [rewriteIfS, declCountS]
  | .ledToggle n, _ => by simp [rewriteIfS, declCountS]
  | .ledSetBrightness n v, _ => by simp [rewriteIfS, declCountS]
  | .ledFlashPattern n p d, _ => by simp [rewriteIfS, declCountS]

theorem rewriteKillsBranches (x : String) (promoted : List String)
    (hx : promoted.contains x = true) :
    ∀ branches : List (String × List Stmt),
      loopDeclFreeBranches x branches = true →
      declCountBranches x (rewriteIfBranches promoted branches) = 0
  | [], _ => rfl
  | (c, b) :: rest, h => by
      have hb : loopDeclFreeL x b = true ∧
          loopDeclFreeBranches x rest = true := by
        simpa [loopDeclFreeBranches, Bool.and_eq_true] using h
      simp only [rewriteIfBranches, declCountBranches]
      rw [rewriteKillsL x promoted hx b hb.1,
        rewriteKillsBranches x promoted hx rest hb.2]

theorem rewriteKillsL (x : String) (promoted : List String)
    (hx : promoted.contains x = true) :
    ∀ body : List Stmt, loopDeclFreeL x body = true →
      declCountL x (rewriteIfL promoted body) = 0
  | [], _ => rfl
  | s :: rest, h => by
      have hb : loopDeclFreeS x s = true ∧ loopDeclFreeL x rest = true := by
        simpa [loopDeclFreeL, Bool.and_eq_true] using h
      simp only [rewriteIfL, declCountL]
      rw [rewriteKillsS x promoted hx s hb.1,
        rewriteKillsL x promoted hx rest hb.2]

end

theorem declCountBranchesZero (x : String) :
    ∀ l : List (String × List Stmt),
      (∀ p ∈ l, declCountL x p.2 = 0) → declCountBranches x l = 0 := by
  intro l
  induction l with
  | nil => intro _; rfl
  | cons p rest ih =>
      intro h
      rcases p with ⟨c, b⟩
      simp only [declCountBranches]
      rw [h (c, b) (by simp), ih (fun q hq => h q (by simp [hq]))]

/-- C4: for a conditional whose branches each first-assign the same name `x`
not already declared in the enclosing scope, the promotion pass records `x`
exactly once regardless of the branch count; the assembled output is the
hoisted declarations followed by the conditional node, with exactly one
declaration of `x` in the hoisted prefix and none inside the conditional; and
a branch declaration of `x` is rewritten into a plain assignment. -/
theorem c4_promotion_hoists_single_decl :
    ∀ (conds : List String) (branches : List BranchCtx)
      (elseEntry : Option BranchCtx) (ctx : PCtx) (x : String),
      branches ≠ [] →
      ctx.declared.contains x = false →
      (∀ b ∈ branches, x ∈ newDeclared b) →
      (∀ b ∈ branches, loopDeclFreeL x b.body = true) →
      (∀ e, elseEntry = some e → loopDeclFreeL x e.body = true) →
      ((promoteBranchDecls branches elseEntry ctx.declared).map Prod.fst).count x = 1
      ∧ (∃ decls ifNode,
          (assembleIf conds branches elseEntry false ctx).1 = decls ++ [ifNode]
          ∧ declCountL x decls = 1 ∧ declCountS x ifNode = 0)
      ∧ declCountL x (assembleIf conds branches elseEntry false ctx).1 = 1
      ∧ (∀ cType expr,
          rewriteIfS ((promoteBranchDecls branches elseEntry ctx.declared).map Prod.fst)
            (.varDecl x cType expr false) = .varAssign x expr) := by
  intro conds branches elseEntry ctx x hne hx hdecl hfree hfreeE
  obtain ⟨b0, hb0⟩ : ∃ b, b ∈ branches := by
    cases branches with
    | nil => exact absurd rfl hne
    | cons b bs => exact ⟨b, by simp⟩
  have hb : ∃ b ∈ branches, x ∈ newDeclared b := ⟨b0, hb0, hdecl b0 hb0⟩
  have hcount := promoteBranchDecls_count_one branches elseEntry ctx.declared x hx hb
  have hxmem : x ∈ (promoteBranchDecls branches elseEntry ctx.declared).map Prod.fst := by
    refine List.count_pos_iff.mp ?_
    rw [hcount]
    norm_num
  have hxcont : ((promoteBranchDecls branches elseEntry ctx.declared).map
      Prod.fst).contains x = true := (containsTrueIff _ _).mpr hxmem
  have hnempty : ¬ (((promoteBranchDecls branches elseEntry ctx.declared).map
      Prod.fst).isEmpty = true) := by
    intro hEmpty
    rw [List.isEmpty_iff.mp hEmpty] at hxmem
    exact absurd hxmem (List.not_mem_nil x)
  have hmk : ∀ ctx2 : PCtx,
      declCountL x (makePromotionDecls
        (promoteBranchDecls branches elseEntry ctx.declared) false ctx2).1 = 1 := by
    intro ctx2
    rw [makePromotionDecls_fst_local, declCountL_varDecls]
    exact hcount
  have hrbzero : declCountBranches x
      ((conds.zip (branches.map BranchCtx.body)).map
        (fun p => (p.1,
          if ((promoteBranchDecls branches elseEntry ctx.declared).map Prod.fst).isEmpty
          then p.2
          else rewriteIfL
            ((promoteBranchDecls branches elseEntry ctx.declared).map Prod.fst)
            p.2))) = 0 := by
    refine declCountBranchesZero x _ ?_
    intro p hp
    rcases List.mem_map.mp hp with ⟨q, hq, rfl⟩
    rcases q with ⟨c, body⟩
    have hmemz := (List.of_mem_zip hq).2
    rcases List.mem_map.mp hmemz with ⟨b, hbmem, rfl⟩
    dsimp only
    rw [if_neg hnempty]
    exact rewriteKillsL x _ hxcont b.body (hfree b hbmem)
  have hlast : ∀ cType expr,
      rewriteIfS ((promoteBranchDecls branches elseEntry ctx.declared).map Prod.fst)
        (.varDecl x cType expr false) = .varAssign x expr := by
    intro cType expr
    simp [rewriteIfS, hxmem]
  cases elseEntry with
  | none =>
      have hifzero : declCountS x (Stmt.ifStmt
          ((conds.zip (branches.map BranchCtx.body)).map
            (fun p => (p.1,
              if ((promoteBranchDecls branches none ctx.declared).map Prod.fst).isEmpty
              then p.2
              else rewriteIfL
                ((promoteBranchDecls branches none ctx.declared).map Prod.fst)
                p.2))) ([] : List Stmt)) = 0 := by
        simp only [declCountS]
        rw [hrbzero]
        rfl
      refine ⟨hcount, ⟨_, _, rfl, hmk _, hifzero⟩, ?_, hlast⟩
      have hshape : (assembleIf conds branches none false ctx).1 =
          (makePromotionDecls (promoteBranchDecls branches none ctx.declared)
            false _).1 ++
          [Stmt.ifStmt
            ((conds.zip (branches.map BranchCtx.body)).map
              (fun p => (p.1,
                if ((promoteBranchDecls branches none ctx.declared).map Prod.fst).isEmpty
                then p.2
                else rewriteIfL
                  ((promoteBranchDecls branches none ctx.declared).map Prod.fst)
                  p.2))) ([] : List Stmt)] := rfl
      rw [hshape, declCountL_append, hmk]
      simp only [declCountL, hifzero]
  | some e =>
      have hebzero : declCountL x
          (if ((promoteBranchDecls branches (some e) ctx.declared).map Prod.fst).isEmpty
           then e.body
           else rewriteIfL
             ((promoteBranchDecls branches (some e) ctx.declared).map Prod.fst)
             e.body) = 0 := by
        rw [if_neg hnempty]
        exact rewriteKillsL x _ hxcont e.body (hfreeE e rfl)
      have hifzero : declCountS x (Stmt.ifStmt
          ((conds.zip (branches.map BranchCtx.body)).map
            (fun p => (p.1,
              if ((promoteBranchDecls branches (some e) ctx.declared).map Prod.fst).isEmpty
              then p.2
              else rewriteIfL
                ((promoteBranchDecls branches (some e) ctx.declared).map Prod.fst)
                p.2)))
          (if ((promoteBranchDecls branches (some e) ctx.declared).map Prod.fst).isEmpty
           then e.body
           else rewriteIfL
             ((promoteBranchDecls branches (some e) ctx.declared).map Prod.fst)
             e.body)) = 0 := by
        simp only [declCountS]
        rw [hrbzero, hebzero]
      refine ⟨hcount, ⟨_, _, rfl, hmk _, hifzero⟩, ?_, hlast⟩
      have hshape : (assembleIf conds branches (some e) false ctx).1 =
          (makePromotionDecls (promoteBranchDecls branches (some e) ctx.declared)
            false _).1 ++
          [Stmt.ifStmt
            ((conds.zip (branches.map BranchCtx.body)).map
              (fun p => (p.1,
                if ((promoteBranchDecls branches (some e) ctx.declared).map Prod.fst).isEmpty
                then p.2
                else rewriteIfL
                  ((promoteBranchDecls branches (some e) ctx.declared).map Prod.fst)
                  p.2)))
            (if ((promoteBranchDecls branches (some e) ctx.declared).map Prod.fst).isEmpty
             then e.body
             else rewriteIfL
               ((promoteBranchDecls branches (some e) ctx.declared).map Prod.fst)
               e.body)] := rfl
      rw [hshape, declCountL_append, hmk]
      simp only [declCountL, hifzero]

theorem c4_promotion_hoists_single_decl_witness :
    (([⟨[], ["c"], [("c", "int")], [Stmt.varDecl "c" "int" "3" false]⟩,
       ⟨[], ["c"], [("c", "int")], [Stmt.varDecl "c" "int" "4" false]⟩] :
        List BranchCtx) ≠ [])
    ∧ ((promoteBranchDecls
        [⟨[], ["c"], [("c", "int")], [Stmt.varDecl "c" "int" "3" false]⟩,
         ⟨[], ["c"], [("c", "int")], [Stmt.varDecl "c" "int" "4" false]⟩]
        (some ⟨[], ["c"], [("c", "int")], [Stmt.varDecl "c" "int" "5" false]⟩)
        []).map Prod.fst).count "c" = 1
    ∧ declCountL "c"
        (assembleIf ["(a < b)", "(a == b)"]
          [⟨[], ["c"], [("c", "int")], [Stmt.varDecl "c" "int" "3" false]⟩,
           ⟨[], ["c"], [("c", "int")], [Stmt.varDecl "c" "int" "4" false]⟩]
          (some ⟨[], ["c"], [("c", "int")], [Stmt.varDecl "c" "int" "5" false]⟩)
          false ⟨[], [], []⟩).1 = 1 := by
  have h := c4_promotion_hoists_single_decl
    ["(a < b)", "(a == b)"]
    [⟨[], ["c"], [("c", "int")], [Stmt.varDecl "c" "int" "3" false]⟩,
     ⟨[], ["c"], [("c", "int")], [Stmt.varDecl "c" "int" "4" false]⟩]
    (some ⟨[], ["c"], [("c", "int")], [Stmt.varDecl "c" "int" "5" false]⟩)
    ⟨[], [], []⟩ "c"
    (by simp)
    rfl
    (by
      intro b hb
      simp only [List.mem_cons, List.not_mem_nil, or_false] at hb
      rcases hb with rfl | rfl <;> decide)
    (by
      intro b hb
      simp only [List.mem_cons, List.not_mem_nil, or_false] at hb
      rcases hb with rfl | rfl <;> decide)
    (by
      intro e he
      injection he with h2
      subst h2
      decide)
  exact ⟨by simp, h.1, h.2.2.1⟩

end Reduino
